import Mathlib

/-!
Verification development for the collgs_download catalog downloader
(src/collgs_download.py).  The Python program is shallowly embedded:

* JSON values become the inductive type `Json` (Python numbers outside
  `Int` and other exotica do not occur in any claim).
* Python strings become Lean `String`; the string operations used by the
  source (`lower`, `endswith`, substring membership, `lstrip("/")`,
  `startswith`) are re-implemented over `List Char` so that proofs can
  proceed by list induction.  All strings in the claims are ASCII, where
  `Char.toLower` agrees with Python `str.lower`.
* `find_zip_links`, `load_config` default backfill, `build_url_from_config`
  (including its in-place mutation of the parameters mapping, which is made
  explicit by returning the updated configuration), `resolve_url` with a
  faithful specialisation of `urllib.parse.urljoin` to the fixed base
  `https://collgs.lu/`, `urllib.parse.urlencode` with `quote_plus`, and
  `stream_download` over an explicit filesystem/network model.
* The `main` driver becomes `runMain` over an environment that abstracts
  the filesystem and the network; `sys.exit(n)` becomes `Outcome.exited n`,
  an uncaught Python exception becomes `Outcome.uncaught`.
-/

/-- JSON-like values as handled by the Python program (dicts keep their
insertion order, hence association lists). -/
inductive Json where
  | str : String → Json
  | num : Int → Json
  | bool : Bool → Json
  | null : Json
  | arr : List Json → Json
  | obj : List (String × Json) → Json

/-- Boolean prefix test on character lists. -/
def listPref : List Char → List Char → Bool
  | [], _ => true
  | _ :: _, [] => false
  | a :: as, b :: bs => a = b && listPref as bs

/-- Boolean infix test on character lists (`needle` occurs inside `hay`). -/
def listInf (needle : List Char) : List Char → Bool
  | [] => needle.isEmpty
  | c :: rest => listPref needle (c :: rest) || listInf needle rest

/-- Python `needle in hay` on strings (substring containment). -/
def strContains (hay needle : String) : Bool := listInf needle.data hay.data

/-- Python `s.endswith(suffix)`. -/
def strEndsWith (s suffix : String) : Bool :=
  listPref suffix.data.reverse s.data.reverse

/-- Python `s.startswith(pre)`. -/
def strStartsWith (s pre : String) : Bool := listPref pre.data s.data

/-- Python `s.lower()` (ASCII range, which covers every string the claims
mention). -/
def pyLower (s : String) : String := String.mk (s.data.map Char.toLower)

/-- Key names treated as link fields by `find_zip_links`
(`{"url", "href", "downloadlink", "file", "link"}` in the source). -/
def linkKeys : List String := ["url", "href", "downloadlink", "file", "link"]

/-- Insertion condition of `find_zip_links` for a dict pair whose value is
the string `v` under key `k`: the outer test
`k.lower() in {...} or v.endswith(".zip") or ".zip" in v`
followed by the inner test `".zip" in v.lower()`. -/
def zipCond (k v : String) : Bool :=
  (linkKeys.contains (pyLower k) || strEndsWith v ".zip" || strContains v ".zip")
    && strContains (pyLower v) ".zip"

/-- Python `set.add` on a set represented as a duplicate-free list in
insertion order. -/
def insertS (s : String) (acc : List String) : List String :=
  if s ∈ acc then acc else acc ++ [s]

mutual

/-- The `_walk` closure of `find_zip_links` on a node (dict case walks the
`data` value first, then every pair). -/
def walkJ : Json → List String → List String
  | .obj kvs, acc => walkPairs kvs (walkData kvs acc)
  | .arr xs, acc => walkArr xs acc
  | _, acc => acc

/-- Dict lookup `node["data"]` followed by `_walk` on the value, guarded by
`"data" in node`. -/
def walkData : List (String × Json) → List String → List String
  | [], acc => acc
  | (k, v) :: rest, acc => if k = "data" then walkJ v acc else walkData rest acc

/-- The `for k, v in node.items()` loop of `_walk`. -/
def walkPairs : List (String × Json) → List String → List String
  | [], acc => acc
  | (_, .obj kvs) :: rest, acc => walkPairs rest (walkJ (.obj kvs) acc)
  | (_, .arr xs) :: rest, acc => walkPairs rest (walkJ (.arr xs) acc)
  | (k, .str s) :: rest, acc =>
      walkPairs rest (if zipCond k s then insertS s acc else acc)
  | (_, .num _) :: rest, acc => walkPairs rest acc
  | (_, .bool _) :: rest, acc => walkPairs rest acc
  | (_, .null) :: rest, acc => walkPairs rest acc

/-- The `for item in node` loop of `_walk` on a list. -/
def walkArr : List Json → List String → List String
  | [], acc => acc
  | x :: rest, acc => walkArr rest (walkJ x acc)

end

/-- `find_zip_links` from the source: recursively scan a JSON-like
structure for `.zip` URLs, returning the found set (represented as a
duplicate-free list in insertion order). -/
def find_zip_links (o : Json) : List String := walkJ o []

mutual

/-- Every key/value pair of the JSON tree whose value is a string, in
traversal order.  This is the derived notion used to characterise which
strings `find_zip_links` can ever collect. -/
def strPairs : Json → List (String × String)
  | .obj kvs => strPairsP kvs
  | .arr xs => strPairsA xs
  | _ => []

/-- String-valued pairs reachable from a list of dict entries. -/
def strPairsP : List (String × Json) → List (String × String)
  | [] => []
  | (k, .str s) :: rest => (k, s) :: strPairsP rest
  | (_, .obj kvs) :: rest => strPairs (.obj kvs) ++ strPairsP rest
  | (_, .arr xs) :: rest => strPairs (.arr xs) ++ strPairsP rest
  | (_, .num _) :: rest => strPairsP rest
  | (_, .bool _) :: rest => strPairsP rest
  | (_, .null) :: rest => strPairsP rest

/-- String-valued pairs reachable from the elements of a JSON array. -/
def strPairsA : List Json → List (String × String)
  | [] => []
  | x :: rest => strPairs x ++ strPairsA rest

end

/-- First value stored under the key `data`, mirroring `node["data"]`. -/
def dataVal : List (String × Json) → Option Json
  | [] => none
  | (k, v) :: rest => if k = "data" then some v else dataVal rest

/-- A string `s` is a hit of the tree `j` when some key/value pair carries
it and the insertion condition holds. -/
def hitJ (j : Json) (s : String) : Prop :=
  ∃ k, (k, s) ∈ strPairs j ∧ zipCond k s = true

/-- Hit of a list of dict entries. -/
def hitP (kvs : List (String × Json)) (s : String) : Prop :=
  ∃ k, (k, s) ∈ strPairsP kvs ∧ zipCond k s = true

/-- Hit of a list of array elements. -/
def hitA (xs : List Json) (s : String) : Prop :=
  ∃ k, (k, s) ∈ strPairsA xs ∧ zipCond k s = true

/-- Hit of the `data` value of a dict, when present. -/
def hitD (kvs : List (String × Json)) (s : String) : Prop :=
  ∃ v, dataVal kvs = some v ∧ hitJ v s

mutual

/-- Size measure on JSON trees, used for the strong induction behind the
membership characterisation of the walk. -/
def jsizeJ : Json → Nat
  | .obj kvs => jsizeP kvs + 1
  | .arr xs => jsizeA xs + 1
  | _ => 1

/-- Size measure on dict entry lists. -/
def jsizeP : List (String × Json) → Nat
  | [] => 0
  | (_, v) :: rest => jsizeJ v + jsizeP rest + 1

/-- Size measure on array element lists. -/
def jsizeA : List Json → Nat
  | [] => 0
  | x :: rest => jsizeJ x + jsizeA rest + 1

end

/-- Test input of the spec for the three-element extraction example. -/
def exThree : Json :=
  .obj [("data", .obj [("items", .arr
    [ .obj [("url", .str "http://x/a.zip")]
    , .obj [("href", .str "rel/b.ZIP")]
    , .obj [("note", .str "see a.zip for details")] ])])]

/-- Dict lookup on an association list (Python dicts have unique keys, so
first match and last match coincide for every dict the program builds). -/
def jLookup : List (String × Json) → String → Option Json
  | [], _ => none
  | (k, v) :: rest, key => if k = key then some v else jLookup rest key

/-- Python `key in config`. -/
def hasKey (l : List (String × Json)) (k : String) : Bool := (jLookup l k).isSome

/-- In-place dict update `d[key] = nv` for a key already present (the
position of the entry is preserved, as for a Python dict). -/
def setKey : List (String × Json) → String → Json → List (String × Json)
  | [], _, _ => []
  | (k, v) :: rest, key, nv =>
      if k = key then (k, nv) :: rest else (k, v) :: setKey rest key nv

/-- Python `d.get(key, default)`. -/
def pyGetD (l : List (String × Json)) (k : String) (d : Json) : Json :=
  (jLookup l k).getD d

/-- View of a JSON value as a dict.  The source would raise on `.get` or
membership applied to a non-dict value; every claim concerns values that
are dicts (or absent), which the theorems require through hypotheses. -/
def asObj : Json → List (String × Json)
  | .obj kvs => kvs
  | _ => []

/-- Default base URL of the service search endpoint. -/
def defaultBaseUrl : Json := .str "https://collgs.lu/catalog/oseo/search"

/-- Backfill step of `load_config`: `if "base_url" not in config:` inject
the default search endpoint. -/
def bfBaseUrl (config : List (String × Json)) : List (String × Json) :=
  if hasKey config "base_url" then config
  else config ++ [("base_url", defaultBaseUrl)]

/-- Backfill step of `load_config`: `if "parameters" not in config:` inject
an empty mapping. -/
def bfParameters (config : List (String × Json)) : List (String × Json) :=
  if hasKey config "parameters" then config
  else config ++ [("parameters", .obj [])]

/-- Backfill step of `load_config`: inject `httpAccept = "json"` into the
parameters mapping when absent (the dict is updated in place).  The source
would raise on a non-dict `parameters` value, a case outside every
claim. -/
def bfHttpAccept (config : List (String × Json)) : List (String × Json) :=
  match jLookup config "parameters" with
  | some (.obj kvs) =>
      if hasKey kvs "httpAccept" then config
      else setKey config "parameters" (.obj (kvs ++ [("httpAccept", .str "json")]))
  | _ => config

/-- Backfill step of `load_config`: `if "output_directory" not in config:`
inject `"downloads"`. -/
def bfOutputDir (config : List (String × Json)) : List (String × Json) :=
  if hasKey config "output_directory" then config
  else config ++ [("output_directory", .str "downloads")]

/-- Default backfill of `load_config` (lines 56–64 of the source): inject
`base_url`, `parameters`, `parameters["httpAccept"]` and
`output_directory` when absent, in source order. -/
def load_config_backfill (config : List (String × Json)) : List (String × Json) :=
  bfOutputDir (bfHttpAccept (bfParameters (bfBaseUrl config)))

/-- The `config.get("connection", {})` mapping read by `main`. -/
def mainConnection (config : List (String × Json)) : List (String × Json) :=
  asObj (pyGetD config "connection" (.obj []))

/-- `connection.get("timeout", 120)` from `main`. -/
def mainTimeout (config : List (String × Json)) : Json :=
  pyGetD (mainConnection config) "timeout" (.num 120)

/-- `connection.get("retries", 3)` from `main`. -/
def mainRetries (config : List (String × Json)) : Json :=
  pyGetD (mainConnection config) "retries" (.num 3)

/-- `connection.get("user_agent", "eo-downloader/1.0")` from `main`. -/
def mainUserAgent (config : List (String × Json)) : Json :=
  pyGetD (mainConnection config) "user_agent" (.str "eo-downloader/1.0")

/-- The `config.get("download_options", {})` mapping read by `main`. -/
def mainDownloadOptions (config : List (String × Json)) : List (String × Json) :=
  asObj (pyGetD config "download_options" (.obj []))

/-- `download_options.get("chunk_size", 65536)` from `main`. -/
def mainChunkSize (config : List (String × Json)) : Json :=
  pyGetD (mainDownloadOptions config) "chunk_size" (.num 65536)

/-- `download_options.get("skip_existing", True)` from `main`. -/
def mainSkipExisting (config : List (String × Json)) : Json :=
  pyGetD (mainDownloadOptions config) "skip_existing" (.bool true)

/-- Characters never escaped by `urllib.parse.quote`: ASCII letters,
digits, and `_.-~`. -/
def alwaysSafeChar (c : Char) : Bool :=
  (('A' ≤ c && c ≤ 'Z') || ('a' ≤ c && c ≤ 'z') || ('0' ≤ c && c ≤ '9')
    || c = '_' || c = '.' || c = '-' || c = '~')

/-- Uppercase hexadecimal digit, as used by percent-escapes (arguments are
always below 16, so the final catch-all is only reached at 15). -/
def hexDigit : Nat → Char
  | 0 => '0' | 1 => '1' | 2 => '2' | 3 => '3' | 4 => '4'
  | 5 => '5' | 6 => '6' | 7 => '7' | 8 => '8' | 9 => '9'
  | 10 => 'A' | 11 => 'B' | 12 => 'C' | 13 => 'D' | 14 => 'E'
  | _ => 'F'

/-- UTF-8 bytes of a character, as `str.encode` produces them. -/
def utf8Bytes (c : Char) : List Nat :=
  let n := c.toNat
  if n < 128 then [n]
  else if n < 2048 then [192 + n / 64, 128 + n % 64]
  else if n < 65536 then [224 + n / 4096, 128 + (n / 64) % 64, 128 + n % 64]
  else [240 + n / 262144, 128 + (n / 4096) % 64, 128 + (n / 64) % 64, 128 + n % 64]

/-- Percent escape of one byte (`%XX`, uppercase hex). -/
def pctByte (b : Nat) : List Char := ['%', hexDigit (b / 16), hexDigit (b % 16)]

/-- One character as emitted by `urllib.parse.quote(s, safe)`: kept when
always-safe or in the (ASCII) safe set, otherwise percent-escaped per
UTF-8 byte. -/
def quoteChar (safe : List Char) (c : Char) : List Char :=
  if alwaysSafeChar c || safe.contains c then [c]
  else (utf8Bytes c).flatMap pctByte

/-- `urllib.parse.quote(s, safe)`. -/
def pyQuote (s : String) (safe : String) : String :=
  String.mk ((s.data.map (quoteChar safe.data)).flatten)

/-- `urllib.parse.quote_plus(s, safe)`: when the string has a space, quote
with the space added to the safe set and then replace each space by `+`. -/
def pyQuotePlus (s : String) (safe : String) : String :=
  if ' ' ∈ s.data then
    String.mk (((pyQuote s (safe ++ " ")).data).map (fun c => if c = ' ' then '+' else c))
  else pyQuote s safe

/-- Python `str()` of a scalar JSON value as it is interpolated into the
query string (container values never occur as parameter values or base
URLs in any claim). -/
def jsonPyStr : Json → String
  | .str s => s
  | .num n => toString n
  | .bool b => if b then "True" else "False"
  | .null => "None"
  | .arr _ => ""
  | .obj _ => ""

/-- `urllib.parse.urlencode(params, safe=...)` with the default
`quote_via=quote_plus`: each pair becomes `quote_plus(k)=quote_plus(v)`,
joined with `&`. -/
def urlencodePy (params : List (String × String)) (safe : String) : String :=
  String.intercalate "&"
    (params.map (fun kv => pyQuotePlus kv.1 safe ++ "=" ++ pyQuotePlus kv.2 safe))

/-- `build_url_from_config` from the source.  The Python function mutates
`config["parameters"]` in place when the mapping exists and lacks
`httpAccept` (because `params` aliases the dict); the embedding makes the
state change explicit by returning the updated configuration alongside
the URL. -/
def build_url_from_config (config : List (String × Json)) :
    String × List (String × Json) :=
  let base_url := pyGetD config "base_url" defaultBaseUrl
  let pkvs := asObj (pyGetD config "parameters" (.obj []))
  let pkvs1 := if hasKey pkvs "httpAccept" then pkvs
               else pkvs ++ [("httpAccept", .str "json")]
  let config2 :=
    if hasKey pkvs "httpAccept" then config
    else match jLookup config "parameters" with
      | some (.obj _) => setKey config "parameters" (.obj pkvs1)
      | _ => config
  (jsonPyStr base_url ++ "?"
      ++ urlencodePy (pkvs1.map (fun kv => (kv.1, jsonPyStr kv.2))) "[],:",
    config2)

/-- The characters passed as `safe` to `urlencode` by the source
(`safe='[],:'`). -/
def safeSetC : List Char := ['[', ']', ',', ':']

/-- Closed form of `quote_plus` with the safe set `[],:` on one character:
safe characters stay literal, a space becomes `+`, and every other
character is percent-escaped byte by byte.  This is the encoding shape the
amended claim C6 states. -/
def encodedCharForm (c : Char) : List Char :=
  if alwaysSafeChar c || safeSetC.contains c then [c]
  else if c = ' ' then ['+']
  else (utf8Bytes c).flatMap pctByte

/-- Configuration with a bracketed parameter value, for the literal
rendering example of C6. -/
def cfgBracket : List (String × Json) :=
  [("base_url", .str "http://b"), ("parameters", .obj [("a", .str "[1,2]")])]

/-- Configuration with a space inside a parameter value, for the
plus-encoding counterexample of C6. -/
def cfgSpace : List (String × Json) :=
  [("base_url", .str "http://b"), ("parameters", .obj [("a", .str "a b")])]

/-- Reserved URI characters other than the safe set `[],:` (the generic and
sub-delimiters of RFC 3986 minus the four safe ones). -/
def reservedOthers : List Char :=
  ['/', '?', '#', '@', '&', '=', '+', ';', '$', '!', '(', ')', '*']

/-- Python `s.lstrip("/")` on the character list. -/
def lstripSlash : List Char → List Char
  | [] => []
  | c :: rest => if c = '/' then lstripSlash rest else c :: rest

/-- Split at the first occurrence of `t`: the part before it, and the part
after it when present (`str.partition`). -/
def partAt (t : Char) : List Char → List Char × Option (List Char)
  | [] => ([], none)
  | c :: rest =>
    if c = t then ([], some rest)
    else
      let p := partAt t rest
      (c :: p.1, p.2)

/-- Characters allowed in a URL scheme (`scheme_chars` of urllib). -/
def schemeCharOK (c : Char) : Bool :=
  c.isAlpha || c.isDigit || c = '+' || c = '-' || c = '.'

/-- Scheme detection of `urlsplit`: the text before the first `:` counts as
a scheme when nonempty, letter-initial and made of scheme characters; it is
returned lowercased with the remainder, and otherwise the URL is left
untouched. -/
def splitScheme (cs : List Char) : Option (List Char × List Char) :=
  match partAt ':' cs with
  | (_, none) => none
  | (before, some after) =>
    match before with
    | [] => none
    | c0 :: _ =>
      if c0.isAlpha && before.all schemeCharOK then
        some (before.map Char.toLower, after)
      else none

/-- Netloc scan of `_splitnetloc`: everything up to the first of `/?#`. -/
def splitNetloc : List Char → List Char × List Char
  | [] => ([], [])
  | c :: rest =>
    if c = '/' || c = '?' || c = '#' then ([], c :: rest)
    else
      let p := splitNetloc rest
      (c :: p.1, p.2)

/-- Netloc extraction of `urlsplit`: only applies after a leading `//`. -/
def netlocSplitTop (cs : List Char) : List Char × List Char :=
  match cs with
  | c1 :: c2 :: r2 => if c1 = '/' ∧ c2 = '/' then splitNetloc r2 else ([], cs)
  | _ => ([], cs)

/-- Python `s.split(sep)` on characters (never returns an empty list). -/
def splitOnCharL (t : Char) : List Char → List (List Char)
  | [] => [[]]
  | c :: rest =>
    if c = t then [] :: splitOnCharL t rest
    else
      match splitOnCharL t rest with
      | [] => [[c]]
      | s :: ss => (c :: s) :: ss

/-- Python `sep.join(parts)` on characters. -/
def joinCharL (t : Char) : List (List Char) → List Char
  | [] => []
  | [s] => s
  | s :: rest => s ++ t :: joinCharL t rest

/-- The in-place filter `segments[1:-1] = filter(None, segments[1:-1])` on
the tail of a segment list: drop empty segments but keep the final one. -/
def midKeepLast : List (List Char) → List (List Char)
  | [] => []
  | [x] => [x]
  | x :: rest => if x.isEmpty then midKeepLast rest else x :: midKeepLast rest

/-- The same filter applied to a whole segment list (first and last
elements are kept untouched). -/
def pyMidFilter : List (List Char) → List (List Char)
  | [] => []
  | [a] => [a]
  | a :: rest => a :: midKeepLast rest

/-- Dot-segment resolution loop of `urljoin`: `..` pops, `.` is skipped,
anything else is appended. -/
def resolveSegs (acc : List (List Char)) : List (List Char) → List (List Char)
  | [] => acc
  | s :: rest =>
    if s = ['.', '.'] then resolveSegs acc.dropLast rest
    else if s = ['.'] then resolveSegs acc rest
    else resolveSegs (acc ++ [s]) rest

/-- Split at the last `/`: the part up to and including it, and the final
segment (`([], p)` when there is no slash). -/
def breakLastSlash (p : List Char) : List Char × List Char :=
  match partAt '/' p.reverse with
  | (segRev, some restRev) => (restRev.reverse ++ ['/'], segRev.reverse)
  | (_, none) => ([], p)

/-- `_splitparams` of urllib: split path parameters at the first `;` inside
the final path segment. -/
def splitParamsPath (p : List Char) : List Char × List Char :=
  if '/' ∈ p then
    let pr := breakLastSlash p
    match partAt ';' pr.2 with
    | (b, some a) => (pr.1 ++ b, a)
    | (_, none) => (p, [])
  else
    match partAt ';' p with
    | (b, some a) => (b, a)
    | (_, none) => (p, [])

/-- Does the path start with a slash (`path[:1] == '/'`)? -/
def pathStartsSlash : List Char → Bool
  | [] => false
  | c :: _ => c = '/'

/-- `urlunparse`/`urlunsplit` reassembly of urllib, for a scheme in
`uses_netloc` (the path parameters are already folded into the path
argument by the caller). -/
def pyUnsplit (scheme netloc pathParams query frag : List Char) : List Char :=
  let u1 :=
    if netloc ≠ [] ∨ listPref ['/', '/'] pathParams = true then
      let u0 := if pathParams ≠ [] && !(pathStartsSlash pathParams) then
          '/' :: pathParams
        else pathParams
      '/' :: '/' :: (netloc ++ u0)
    else pathParams
  let u2 := if scheme ≠ [] then scheme ++ ':' :: u1 else u1
  let u3 := if query ≠ [] then u2 ++ '?' :: query else u2
  if frag ≠ [] then u3 ++ '#' :: frag else u3

/-- The fixed host prefix `BASE_PREFIX` of the source. -/
def basePrefixStr : String := "https://collgs.lu/"

/-- Final step of the dot-segment resolution of `urljoin`: when the last
raw segment is `.` or `..`, an empty segment is appended to the resolved
list (keeping the trailing slash). -/
def pyFinalDots (segments res0 : List (List Char)) : List (List Char) :=
  match segments.getLast? with
  | some s => if s = ['.'] ∨ s = ['.', '.'] then res0 ++ [[]] else res0
  | none => res0

/-- `urllib.parse.urljoin(BASE_PREFIX, url)` specialised to the base
`https://collgs.lu/` (scheme `https`, netloc `collgs.lu`, path `/`, no
parameters, query or fragment), following the urllib implementation:
parse the reference with default scheme `https`; return it unchanged when
its scheme differs from `https`; reuse its netloc if it has one; take the
base path on an empty reference path; otherwise merge the paths and
resolve dot segments, dropping empty interior segments. -/
def urljoinCollgs (url : String) : String :=
  if url.data = [] then basePrefixStr
  else
    let sp := (splitScheme url.data).getD ("https".data, url.data)
    if sp.1 ≠ "https".data then url
    else
      let nl := netlocSplitTop sp.2
      let pf := partAt '#' nl.2
      let frag := pf.2.getD []
      let pq := partAt '?' pf.1
      let query := pq.2.getD []
      let pp := if ';' ∈ pq.1 then splitParamsPath pq.1 else (pq.1, [])
      let path := pp.1
      let params := pp.2
      if nl.1 ≠ [] then
        String.mk (pyUnsplit "https".data nl.1
          (if params ≠ [] then path ++ ';' :: params else path) query frag)
      else
        if path = [] ∧ params = [] then
          String.mk (pyUnsplit "https".data "collgs.lu".data "/".data query frag)
        else
          let segments :=
            if pathStartsSlash path then splitOnCharL '/' path
            else pyMidFilter ([] :: [] :: splitOnCharL '/' path)
          let res1 := pyFinalDots segments (resolveSegs [] segments)
          let joined := joinCharL '/' res1
          let path2 := if joined = [] then ['/'] else joined
          String.mk (pyUnsplit "https".data "collgs.lu".data
            (if params ≠ [] then path2 ++ ';' :: params else path2) query frag)

/-- `resolve_url` from the source: absolute http/https URLs pass through,
anything else is joined onto the fixed host after trimming leading
slashes. -/
def resolve_url (u : String) : String :=
  if strStartsWith u "http://" || strStartsWith u "https://" then u
  else urljoinCollgs (String.mk (lstripSlash u.data))

/-- Schemes of urllib `uses_params`. -/
def usesParamsL : List (List Char) :=
  ["".data, "ftp".data, "hdl".data, "prospero".data, "http".data, "imap".data,
   "https".data, "shttp".data, "rtsp".data, "rtspu".data, "sip".data,
   "sips".data, "mms".data, "sftp".data, "tel".data]

/-- `urllib.parse.urlparse(url).path`: scheme, netloc, fragment and query
are stripped, and path parameters are split off when the scheme uses
them. -/
def urlparsePath (url : String) : List Char :=
  let sp := (splitScheme url.data).getD ([], url.data)
  let nl := netlocSplitTop sp.2
  let pf := partAt '#' nl.2
  let pq := partAt '?' pf.1
  if sp.1 ∈ usesParamsL ∧ ';' ∈ pq.1 then (splitParamsPath pq.1).1 else pq.1

/-- `pathlib.Path(path).name`: final component, with empty and `.`
components discarded. -/
def pathName (p : List Char) : List Char :=
  let comps := (splitOnCharL '/' p).filter (fun s => !s.isEmpty && s ≠ ['.'])
  match comps.getLast? with
  | some s => s
  | none => []

/-- Destination file name of `stream_download`:
`Path(urlparse(url).path).name or "download.zip"`. -/
def destName (url : String) : String :=
  if pathName (urlparsePath url) = [] then "download.zip"
  else String.mk (pathName (urlparsePath url))

/-- Abstract response of a streaming GET: whether the status is 2xx and
the chunk sequence `iter_content` yields (the Content-Length header only
feeds the progress display, which has no observable effect here). -/
structure HttpResp where
  ok2xx : Bool
  chunks : List (List Nat)

/-- Filesystem state: the set of directories and the files with their
bytes. -/
structure FS where
  dirs : List String
  files : List (String × List Nat)

/-- Does a file exist at this path? -/
def hasFile (fs : FS) (p : String) : Bool := fs.files.any (fun kv => kv.1 = p)

/-- `out_dir.mkdir(parents=True, exist_ok=True)`: record the directory,
leaving every file untouched. -/
def mkdirP (fs : FS) (d : String) : FS :=
  if d ∈ fs.dirs then fs else { fs with dirs := d :: fs.dirs }

/-- Write a file, replacing any previous content at the path. -/
def writeFile (fs : FS) (p : String) (content : List Nat) : FS :=
  { fs with files := (p, content) :: fs.files.filter (fun kv => kv.1 ≠ p) }

/-- `stream_download` from the source over the abstract filesystem and a
network oracle (`none` models a raised connection error).  The result is
the returned path or the raised exception, the new filesystem, and the
number of network requests performed.  Chunk size and timeout only shape
the transfer, which the oracle abstracts. -/
def stream_download (net : String → Option HttpResp) (url : String)
    (out_dir : String) (chunk_size : Nat) (skip_existing : Bool)
    (timeout : Nat) (fs : FS) : Except String String × FS × Nat :=
  let fs1 := mkdirP fs out_dir
  let dest := out_dir ++ "/" ++ destName url
  if skip_existing && hasFile fs1 dest then (.ok dest, fs1, 0)
  else
    match net url with
    | none => (.error "ConnectionError", fs1, 1)
    | some r =>
      if !r.ok2xx then (.error "HTTPError", fs1, 1)
      else (.ok dest,
        writeFile fs1 dest ((r.chunks.filter (fun c => !c.isEmpty)).flatten), 1)

/-- Final state of the process: a clean `sys.exit(code)` or an uncaught
exception (which CPython reports with a traceback). -/
inductive Outcome where
  | exited : Nat → Outcome
  | uncaught : String → Outcome
deriving DecidableEq

/-- Result of the catalog GET: a raised transport error, or a response
with its 2xx flag and the JSON parse of its body. -/
inductive CatalogResult where
  | netError : String → CatalogResult
  | response : Bool → Option Json → CatalogResult

/-- Environment of `main`: the argument vector, the filesystem probe for
the config path, the parsed content of the config file (an object, as
every claim assumes), the catalog response, and the per-URL download
outcome. -/
structure Env where
  argv : List String
  pathExists : String → Bool
  configJson : String → Option (List (String × Json))
  catalog : CatalogResult
  download : String → Except String Unit

/-- Observable side effects of a run: whether a sample config was written,
the URLs attempted in order, and the failure reports printed. -/
structure RunEffects where
  sampleWritten : Bool
  attempted : List String
  failures : List String

/-- The download loop of `main`: every URL is attempted, a failure is
reported with the offending URL and the loop continues. -/
def downloadLoop (dl : String → Except String Unit) :
    List String → List String × List String
  | [] => ([], [])
  | u :: rest =>
    let p := downloadLoop dl rest
    match dl u with
    | .ok _ => (u :: p.1, p.2)
    | .error e => (u :: p.1, ("Failed to download " ++ u ++ ": " ++ e) :: p.2)

/-- Insertion into a sorted list of strings (code-point order, as Python
`sorted` on `str`). -/
def insertSorted (s : String) : List String → List String
  | [] => [s]
  | x :: rest => if x < s then x :: insertSorted s rest else s :: x :: rest

/-- Insertion sort on strings. -/
def sortStrings : List String → List String
  | [] => []
  | x :: rest => insertSorted x (sortStrings rest)

/-- `sorted({... for u in candidates})`: deduplicate, then sort. -/
def pySortedSet (l : List String) : List String :=
  sortStrings (l.foldl (fun acc s => insertS s acc) [])

/-- `main` from the source over the abstract environment.  Command-line
handling, config load (with sample generation), catalog fetch
(`raise_for_status` surfaces as an uncaught exception), JSON parsing
(exit 2 on failure), link extraction (exit 0 when empty) and the guarded
download loop (always exit 0).  The out_dir/connection/download_options
reads of main are modelled by the `main*` accessors above; the loop takes
the download outcomes from the environment. -/
def runMain (env : Env) : Outcome × RunEffects :=
  let usageSample := !(env.pathExists "sample_config.json")
  match env.argv with
  | _ :: a1 :: _ =>
    if strEndsWith a1 ".json" then
      if env.pathExists a1 then
        match env.configJson a1 with
        | none => (.exited 1, ⟨false, [], []⟩)
        | some raw =>
          let config := load_config_backfill raw
          let _built := build_url_from_config config
          match env.catalog with
          | .netError m => (.uncaught m, ⟨false, [], []⟩)
          | .response ok body =>
            if !ok then (.uncaught "HTTPError", ⟨false, [], []⟩)
            else match body with
              | none => (.exited 2, ⟨false, [], []⟩)
              | some payload =>
                let candidates := find_zip_links payload
                if candidates = [] then (.exited 0, ⟨false, [], []⟩)
                else
                  let absUrls := pySortedSet (candidates.map resolve_url)
                  let lp := downloadLoop env.download absUrls
                  (.exited 0, ⟨false, lp.1, lp.2⟩)
      else (.exited 1, ⟨true, [], []⟩)
    else (.exited 1, ⟨usageSample, [], []⟩)
  | _ => (.exited 1, ⟨usageSample, [], []⟩)

theorem mem_insertS (x s : String) (acc : List String) :
    x ∈ insertS s acc ↔ x = s ∨ x ∈ acc := by
  by_cases h : s ∈ acc
  · simp only [insertS, if_pos h]
    constructor
    · exact Or.inr
    · rintro (rfl | hx)
      · exact h
      · exact hx
  · simp only [insertS, if_neg h, List.mem_append, List.mem_singleton]
    exact or_comm

theorem jsizeJ_pos (j : Json) : 1 ≤ jsizeJ j := by
  cases j <;> simp [jsizeJ]

theorem hitJ_obj (kvs : List (String × Json)) (s : String) :
    hitJ (.obj kvs) s ↔ hitP kvs s := by
  simp [hitJ, hitP, strPairs]

theorem hitJ_arr (xs : List Json) (s : String) :
    hitJ (.arr xs) s ↔ hitA xs s := by
  simp [hitJ, hitA, strPairs]

theorem hitJ_str (t s : String) : ¬ hitJ (.str t) s := by
  simp [hitJ, strPairs]

theorem hitJ_num (m : Int) (s : String) : ¬ hitJ (.num m) s := by
  simp [hitJ, strPairs]

theorem hitJ_bool (b : Bool) (s : String) : ¬ hitJ (.bool b) s := by
  simp [hitJ, strPairs]

theorem hitJ_null (s : String) : ¬ hitJ .null s := by
  simp [hitJ, strPairs]

theorem hitP_nil (s : String) : ¬ hitP [] s := by
  simp [hitP, strPairsP]

theorem hitP_cons_obj (k : String) (kvs2 rest : List (String × Json)) (s : String) :
    hitP ((k, .obj kvs2) :: rest) s ↔ hitP kvs2 s ∨ hitP rest s := by
  simp [hitP, strPairsP, strPairs, List.mem_append, or_and_right, exists_or]

theorem hitP_cons_arr (k : String) (xs : List Json) (rest : List (String × Json))
    (s : String) :
    hitP ((k, .arr xs) :: rest) s ↔ hitA xs s ∨ hitP rest s := by
  simp [hitP, hitA, strPairsP, strPairs, List.mem_append, or_and_right, exists_or]

theorem hitP_cons_str (k t : String) (rest : List (String × Json)) (s : String) :
    hitP ((k, .str t) :: rest) s ↔ (s = t ∧ zipCond k t = true) ∨ hitP rest s := by
  constructor
  · rintro ⟨k2, hmem, hc⟩
    rcases List.mem_cons.1 hmem with heq | hrest
    · injection heq with hk3 hs3
      subst hk3; subst hs3
      exact Or.inl ⟨rfl, hc⟩
    · exact Or.inr ⟨k2, hrest, hc⟩
  · rintro (⟨rfl, hc⟩ | ⟨k2, hrest, hc⟩)
    · exact ⟨k, List.mem_cons_self _ _, hc⟩
    · exact ⟨k2, List.mem_cons_of_mem _ hrest, hc⟩

theorem hitP_cons_num (k : String) (m : Int) (rest : List (String × Json)) (s : String) :
    hitP ((k, .num m) :: rest) s ↔ hitP rest s := by
  simp [hitP, strPairsP]

theorem hitP_cons_bool (k : String) (b : Bool) (rest : List (String × Json)) (s : String) :
    hitP ((k, .bool b) :: rest) s ↔ hitP rest s := by
  simp [hitP, strPairsP]

theorem hitP_cons_null (k : String) (rest : List (String × Json)) (s : String) :
    hitP ((k, .null) :: rest) s ↔ hitP rest s := by
  simp [hitP, strPairsP]

theorem hitA_nil (s : String) : ¬ hitA [] s := by
  simp [hitA, strPairsA]

theorem hitA_cons (x : Json) (rest : List Json) (s : String) :
    hitA (x :: rest) s ↔ hitJ x s ∨ hitA rest s := by
  simp [hitA, hitJ, strPairsA, List.mem_append, or_and_right, exists_or]

theorem hitD_nil (s : String) : ¬ hitD [] s := by
  simp [hitD, dataVal]

theorem hitD_cons_eq (v : Json) (rest : List (String × Json)) (s : String) :
    hitD (("data", v) :: rest) s ↔ hitJ v s := by
  simp [hitD, dataVal]

theorem hitD_cons_ne (k : String) (v : Json) (rest : List (String × Json)) (s : String)
    (h : k ≠ "data") : hitD ((k, v) :: rest) s ↔ hitD rest s := by
  simp [hitD, dataVal, h]

theorem hitD_imp_hitP (kvs : List (String × Json)) (s : String) :
    hitD kvs s → hitP kvs s := by
  induction kvs with
  | nil => intro h; exact absurd h (hitD_nil s)
  | cons kv rest ih =>
    obtain ⟨k, v⟩ := kv
    by_cases hk : k = "data"
    · subst hk
      rw [hitD_cons_eq]
      intro hj
      match v with
      | .str t => exact absurd hj (hitJ_str t s)
      | .num m => exact absurd hj (hitJ_num m s)
      | .bool b => exact absurd hj (hitJ_bool b s)
      | .null => exact absurd hj (hitJ_null s)
      | .obj kvs2 => exact (hitP_cons_obj _ _ _ _).2 (Or.inl ((hitJ_obj _ _).1 hj))
      | .arr xs => exact (hitP_cons_arr _ _ _ _).2 (Or.inl ((hitJ_arr _ _).1 hj))
    · rw [hitD_cons_ne _ _ _ _ hk]
      intro hd
      have hp := ih hd
      match v with
      | .str t => exact (hitP_cons_str _ _ _ _).2 (Or.inr hp)
      | .num m => exact (hitP_cons_num _ _ _ _).2 hp
      | .bool b => exact (hitP_cons_bool _ _ _ _).2 hp
      | .null => exact (hitP_cons_null _ _ _).2 hp
      | .obj kvs2 => exact (hitP_cons_obj _ _ _ _).2 (Or.inr hp)
      | .arr xs => exact (hitP_cons_arr _ _ _ _).2 (Or.inr hp)

theorem walk_mem_all : ∀ n : Nat,
    (∀ j, jsizeJ j ≤ n → ∀ acc s, (s ∈ walkJ j acc ↔ s ∈ acc ∨ hitJ j s))
    ∧ (∀ kvs, jsizeP kvs ≤ n → ∀ acc s, (s ∈ walkData kvs acc ↔ s ∈ acc ∨ hitD kvs s))
    ∧ (∀ kvs, jsizeP kvs ≤ n → ∀ acc s, (s ∈ walkPairs kvs acc ↔ s ∈ acc ∨ hitP kvs s))
    ∧ (∀ xs, jsizeA xs ≤ n → ∀ acc s, (s ∈ walkArr xs acc ↔ s ∈ acc ∨ hitA xs s)) := by
  intro n
  induction n using Nat.strong_induction_on with
  | _ n ih =>
    refine ⟨?_, ?_, ?_, ?_⟩
    · intro j hj acc s
      match j with
      | .str t => simp [walkJ, hitJ_str]
      | .num m => simp [walkJ, hitJ_num]
      | .bool b => simp [walkJ, hitJ_bool]
      | .null => simp [walkJ, hitJ_null]
      | .obj kvs =>
        have hsz : jsizeP kvs + 1 ≤ n := by simpa [jsizeJ] using hj
        have h3 : n - 1 < n := by omega
        have h2 : jsizeP kvs ≤ n - 1 := by omega
        obtain ⟨_, ihD, ihP, _⟩ := ih (n - 1) h3
        rw [walkJ, ihP kvs h2, ihD kvs h2, hitJ_obj]
        constructor
        · rintro ((h | h) | h)
          · exact Or.inl h
          · exact Or.inr (hitD_imp_hitP kvs s h)
          · exact Or.inr h
        · rintro (h | h)
          · exact Or.inl (Or.inl h)
          · exact Or.inr h
      | .arr xs =>
        have hsz : jsizeA xs + 1 ≤ n := by simpa [jsizeJ] using hj
        have h3 : n - 1 < n := by omega
        have h2 : jsizeA xs ≤ n - 1 := by omega
        obtain ⟨_, _, _, ihA⟩ := ih (n - 1) h3
        rw [walkJ, ihA xs h2, hitJ_arr]
    · intro kvs hk acc s
      match kvs with
      | [] => simp [walkData, hitD_nil]
      | (k, v) :: rest =>
        have hvpos := jsizeJ_pos v
        have hsz : jsizeJ v + jsizeP rest + 1 ≤ n := by simpa [jsizeP] using hk
        have h3 : n - 1 < n := by omega
        obtain ⟨ihJ, ihD, _, _⟩ := ih (n - 1) h3
        by_cases hkd : k = "data"
        · subst hkd
          rw [walkData, if_pos rfl, ihJ v (by omega), hitD_cons_eq]
        · rw [walkData, if_neg hkd, ihD rest (by omega), hitD_cons_ne _ _ _ _ hkd]
    · intro kvs hk acc s
      match kvs with
      | [] => simp [walkPairs, hitP_nil]
      | (k, .obj kvs2) :: rest =>
        have hsz : jsizeJ (Json.obj kvs2) + jsizeP rest + 1 ≤ n := by
          simpa [jsizeP] using hk
        have hvpos := jsizeJ_pos (Json.obj kvs2)
        have h3 : n - 1 < n := by omega
        obtain ⟨ihJ, _, ihP, _⟩ := ih (n - 1) h3
        rw [walkPairs, ihP rest (by omega), ihJ (Json.obj kvs2) (by omega),
          hitP_cons_obj, hitJ_obj]
        tauto
      | (k, .arr xs) :: rest =>
        have hsz : jsizeJ (Json.arr xs) + jsizeP rest + 1 ≤ n := by
          simpa [jsizeP] using hk
        have hvpos := jsizeJ_pos (Json.arr xs)
        have h3 : n - 1 < n := by omega
        obtain ⟨ihJ, _, ihP, _⟩ := ih (n - 1) h3
        rw [walkPairs, ihP rest (by omega), ihJ (Json.arr xs) (by omega),
          hitP_cons_arr, hitJ_arr]
        tauto
      | (k, .str t) :: rest =>
        have hsz : jsizeJ (Json.str t) + jsizeP rest + 1 ≤ n := by
          simpa [jsizeP] using hk
        have h3 : n - 1 < n := by omega
        obtain ⟨_, _, ihP, _⟩ := ih (n - 1) h3
        rw [walkPairs, ihP rest (by simp [jsizeJ] at hsz; omega), hitP_cons_str]
        by_cases hc : zipCond k t = true
        · rw [if_pos hc, mem_insertS]
          simp only [hc, and_true]
          tauto
        · rw [if_neg hc]
          have hc2 : zipCond k t = false := by
            cases hzc : zipCond k t
            · rfl
            · exact absurd hzc hc
          simp only [hc2, Bool.false_eq_true, and_false, false_or]
      | (k, .num m) :: rest =>
        have hsz : jsizeJ (Json.num m) + jsizeP rest + 1 ≤ n := by
          simpa [jsizeP] using hk
        have h3 : n - 1 < n := by omega
        obtain ⟨_, _, ihP, _⟩ := ih (n - 1) h3
        rw [walkPairs, ihP rest (by simp [jsizeJ] at hsz; omega), hitP_cons_num]
      | (k, .bool b) :: rest =>
        have hsz : jsizeJ (Json.bool b) + jsizeP rest + 1 ≤ n := by
          simpa [jsizeP] using hk
        have h3 : n - 1 < n := by omega
        obtain ⟨_, _, ihP, _⟩ := ih (n - 1) h3
        rw [walkPairs, ihP rest (by simp [jsizeJ] at hsz; omega), hitP_cons_bool]
      | (k, .null) :: rest =>
        have hsz : jsizeJ Json.null + jsizeP rest + 1 ≤ n := by
          simpa [jsizeP] using hk
        have h3 : n - 1 < n := by omega
        obtain ⟨_, _, ihP, _⟩ := ih (n - 1) h3
        rw [walkPairs, ihP rest (by simp [jsizeJ] at hsz; omega), hitP_cons_null _ _ _]
    · intro xs hx acc s
      match xs with
      | [] => simp [walkArr, hitA_nil]
      | x :: rest =>
        have hvpos := jsizeJ_pos x
        have hsz : jsizeJ x + jsizeA rest + 1 ≤ n := by simpa [jsizeA] using hx
        have h3 : n - 1 < n := by omega
        obtain ⟨ihJ, _, _, ihA⟩ := ih (n - 1) h3
        rw [walkArr, ihA rest (by omega), ihJ x (by omega), hitA_cons]
        tauto

theorem find_zip_links_mem_iff (j : Json) (s : String) :
    s ∈ find_zip_links j ↔ hitJ j s := by
  have h := (walk_mem_all (jsizeJ j)).1 j (le_refl _) [] s
  simpa [find_zip_links] using h

/-- C1: for every JSON tree, a string is collected by find_zip_links exactly
when some object pair carries it as value and the source test passes: the
key, lowercased, is one of the link field names, or the value ends with
".zip", or contains ".zip" — and, in all qualifying cases, the final
case-insensitive check that ".zip" occurs in the value passes.  In
particular a link-named field whose value has no ".zip" is skipped:
the object with pair url ↦ "http://x/readme.txt" yields the empty set. -/
theorem find_zip_links_insertion_rule :
    (∀ (j : Json) (s : String),
        s ∈ find_zip_links j ↔
          ∃ k, (k, s) ∈ strPairs j ∧
            ((linkKeys.contains (pyLower k) || strEndsWith s ".zip"
                || strContains s ".zip")
              && strContains (pyLower s) ".zip") = true)
    ∧ find_zip_links (.obj [("url", .str "http://x/readme.txt")]) = [] := by
  constructor
  · intro j s
    exact find_zip_links_mem_iff j s
  · decide

/-- C2: on the nested example with a url field "http://x/a.zip", an href
field "rel/b.ZIP" and a note field "see a.zip for details", the extractor
returns exactly that three-element set (the note value is captured because
it contains ".zip" as a substring). -/
theorem find_zip_links_three_element_example :
    find_zip_links exThree
      = ["http://x/a.zip", "rel/b.ZIP", "see a.zip for details"]
    ∧ ∀ s, s ∈ find_zip_links exThree ↔
        (s = "http://x/a.zip" ∨ s = "rel/b.ZIP" ∨ s = "see a.zip for details") := by
  refine ⟨by decide, ?_⟩
  intro s
  rw [show find_zip_links exThree
      = ["http://x/a.zip", "rel/b.ZIP", "see a.zip for details"] from by decide]
  simp

/-- C10: strings are only collected from object key/value pairs; a bare
top-level string and a string sitting directly in an array are never
collected, and in general every collected string is the value of some
object pair of the tree. -/
theorem find_zip_links_only_object_pair_values :
    find_zip_links (.str "a.zip") = []
    ∧ find_zip_links (.arr [.str "http://x/a.zip"]) = []
    ∧ ∀ (j : Json) (s : String), s ∈ find_zip_links j → ∃ k, (k, s) ∈ strPairs j := by
  refine ⟨by decide, by decide, ?_⟩
  intro j s hs
  obtain ⟨k, hk, _⟩ := (find_zip_links_mem_iff j s).1 hs
  exact ⟨k, hk⟩

/-- Witness for C10: the general part applied at a concrete tree. -/
theorem find_zip_links_only_object_pair_values_witness :
    "a.zip" ∈ find_zip_links (Json.obj [("url", Json.str "a.zip")])
    ∧ ∃ k, (k, "a.zip") ∈ strPairs (Json.obj [("url", Json.str "a.zip")]) := by
  refine ⟨by decide, ?_⟩
  exact find_zip_links_only_object_pair_values.2.2 _ _ (by decide)

theorem hexDigit_ne_space (m : Nat) : hexDigit m ≠ ' ' := by
  unfold hexDigit
  split <;> decide

theorem pctByte_map_rep (b : Nat) :
    (pctByte b).map (fun c => if c = ' ' then '+' else c) = pctByte b := by
  unfold pctByte
  simp only [List.map_cons, List.map_nil,
    if_neg (by decide : ¬('%' = ' ')),
    if_neg (hexDigit_ne_space (b / 16)), if_neg (hexDigit_ne_space (b % 16))]

theorem map_rep_flatMap_pct (bs : List Nat) :
    (bs.flatMap pctByte).map (fun c => if c = ' ' then '+' else c)
      = bs.flatMap pctByte := by
  induction bs with
  | nil => rfl
  | cons b rest ih =>
    simp only [List.flatMap_cons, List.map_append, ih, pctByte_map_rep]

theorem quoteChar_no_space (c : Char) (hc : ¬ c = ' ') :
    quoteChar safeSetC c = encodedCharForm c := by
  by_cases h1 : (alwaysSafeChar c || safeSetC.contains c) = true
  · rw [quoteChar, if_pos h1, encodedCharForm, if_pos h1]
  · rw [quoteChar, if_neg h1, encodedCharForm, if_neg h1, if_neg hc]

theorem contains_safe_space (c : Char) :
    ((safeSetC ++ [' ']).contains c) = (safeSetC.contains c || c = ' ') := by
  simp [safeSetC, List.contains_cons, Bool.or_assoc]

theorem quoteChar_space_variant (c : Char) :
    ((quoteChar (safeSetC ++ [' ']) c).map (fun x => if x = ' ' then '+' else x))
      = encodedCharForm c := by
  by_cases hsp : c = ' '
  · subst hsp; decide
  · by_cases h1 : (alwaysSafeChar c || safeSetC.contains c) = true
    · have h2 : (alwaysSafeChar c || (safeSetC ++ [' ']).contains c) = true := by
        rw [contains_safe_space, ← Bool.or_assoc, h1, Bool.true_or]
      rw [quoteChar, if_pos h2, encodedCharForm, if_pos h1]
      simp [hsp]
    · have h1f : (alwaysSafeChar c || safeSetC.contains c) = false := by
        cases hx : (alwaysSafeChar c || safeSetC.contains c)
        · rfl
        · exact absurd hx h1
      have h2 : (alwaysSafeChar c || (safeSetC ++ [' ']).contains c) = false := by
        rw [contains_safe_space, ← Bool.or_assoc, h1f, Bool.false_or,
          decide_eq_false hsp]
      have h2n : ¬ ((alwaysSafeChar c || (safeSetC ++ [' ']).contains c) = true) := by
        rw [h2]; exact Bool.false_ne_true
      rw [quoteChar, if_neg h2n, encodedCharForm, if_neg h1, if_neg hsp]
      exact map_rep_flatMap_pct (utf8Bytes c)

theorem pyQuotePlus_closed (v : String) :
    pyQuotePlus v "[],:" = String.mk ((v.data.map encodedCharForm).flatten) := by
  unfold pyQuotePlus
  by_cases hsp : ' ' ∈ v.data
  · rw [if_pos hsp]
    unfold pyQuote
    rw [show ("[],:" ++ " " : String).data = safeSetC ++ [' '] from rfl]
    congr 1
    induction v.data with
    | nil => rfl
    | cons c rest ih =>
      simp only [List.map_cons, List.flatten_cons, List.map_append, ih,
        quoteChar_space_variant]
  · rw [if_neg hsp]
    unfold pyQuote
    rw [show ("[],:" : String).data = safeSetC from rfl]
    congr 1
    have hcong : ∀ c ∈ v.data, quoteChar safeSetC c = encodedCharForm c := by
      intro c hc
      exact quoteChar_no_space c (fun heq => hsp (heq ▸ hc))
    rw [List.map_congr_left hcong]

/-- C6 (amended): the query string built with `safe='[],:'` renders the
four characters `[ ] , :` (and the always-safe characters) literally and
percent-escapes every other reserved character, but a space is encoded as
`+` (form encoding) rather than percent-escaped; `{"a": "[1,2]"}` yields
the literal substring `a=[1,2]`. -/
theorem query_encoding_characterisation :
    (∀ v : String,
        pyQuotePlus v "[],:" = String.mk ((v.data.map encodedCharForm).flatten))
    ∧ (∀ c : Char, c ∈ safeSetC → encodedCharForm c = [c])
    ∧ (∀ c : Char, c ∈ reservedOthers → encodedCharForm c = pctByte c.toNat)
    ∧ strContains (build_url_from_config cfgBracket).1 "a=[1,2]" = true
    ∧ (build_url_from_config cfgBracket).1 = "http://b?a=[1,2]&httpAccept=json"
    ∧ pyQuotePlus "a b" "[],:" = "a+b" := by
  refine ⟨pyQuotePlus_closed, by decide, by decide, by decide, by decide, by decide⟩

/-- Witness for C6: the amended characterisation applied at the safe
character `[` and the reserved character `/`. -/
theorem query_encoding_characterisation_witness :
    encodedCharForm '[' = ['['] ∧ encodedCharForm '/' = pctByte '/'.toNat := by
  exact ⟨query_encoding_characterisation.2.1 '[' (by decide),
    query_encoding_characterisation.2.2.1 '/' (by decide)⟩

/-- C6 counterexample: the claim as stated requires a parameter value
containing a space to be percent-encoded, but the code (urlencode with the
default quote_plus) emits a plus sign and the built URL contains no
percent escape at all. -/
theorem space_not_percent_encoded :
    (build_url_from_config cfgSpace).1 = "http://b?a=a+b&httpAccept=json"
    ∧ strContains (build_url_from_config cfgSpace).1 "%" = false
    ∧ strContains (build_url_from_config cfgSpace).1 "+" = true := by
  exact ⟨by decide, by decide, by decide⟩

theorem jLookup_append_ne (l : List (String × Json)) (k0 k : String) (v0 : Json)
    (h : k ≠ k0) : jLookup (l ++ [(k0, v0)]) k = jLookup l k := by
  induction l with
  | nil =>
    simp only [List.nil_append, jLookup]
    rw [if_neg (fun heq => h heq.symm)]
  | cons kv rest ih =>
    obtain ⟨k1, v1⟩ := kv
    by_cases h1 : k1 = k
    · simp [jLookup, h1]
    · simp [jLookup, h1, ih]

theorem jLookup_append_self (l : List (String × Json)) (k : String) (v0 : Json) :
    jLookup (l ++ [(k, v0)]) k = some ((jLookup l k).getD v0) := by
  induction l with
  | nil => simp [jLookup]
  | cons kv rest ih =>
    obtain ⟨k1, v1⟩ := kv
    by_cases h1 : k1 = k
    · simp [jLookup, h1]
    · simp [jLookup, h1, ih]

theorem jLookup_setKey_ne (l : List (String × Json)) (k0 k : String) (nv : Json)
    (h : k ≠ k0) : jLookup (setKey l k0 nv) k = jLookup l k := by
  induction l with
  | nil => simp [setKey]
  | cons kv rest ih =>
    obtain ⟨k1, v1⟩ := kv
    by_cases h0 : k1 = k0
    · subst h0
      simp only [setKey, if_pos rfl, jLookup]
      rw [if_neg (fun heq => h heq.symm), if_neg (fun heq => h heq.symm)]
    · by_cases h1 : k1 = k
      · simp [setKey, h0, jLookup, h1, h]
      · simp [setKey, h0, jLookup, h1, ih]

theorem jLookup_setKey_self (l : List (String × Json)) (k : String) (nv : Json)
    (h : hasKey l k = true) : jLookup (setKey l k nv) k = some nv := by
  induction l with
  | nil => simp [hasKey, jLookup] at h
  | cons kv rest ih =>
    obtain ⟨k1, v1⟩ := kv
    by_cases h1 : k1 = k
    · simp [setKey, h1, jLookup]
    · simp only [hasKey, jLookup, if_neg h1] at h
      simp [setKey, h1, jLookup, ih h]

theorem hasKey_some (l : List (String × Json)) (k : String) (h : hasKey l k = true) :
    ∃ v, jLookup l k = some v := by
  unfold hasKey at h
  exact Option.isSome_iff_exists.1 h

theorem hasKey_none (l : List (String × Json)) (k : String) (h : hasKey l k = false) :
    jLookup l k = none := by
  unfold hasKey at h
  exact Option.not_isSome_iff_eq_none.1 (by simp [h])

theorem bfBaseUrl_self (l : List (String × Json)) :
    jLookup (bfBaseUrl l) "base_url" = some (pyGetD l "base_url" defaultBaseUrl) := by
  unfold bfBaseUrl
  by_cases h : hasKey l "base_url" = true
  · obtain ⟨v, hv⟩ := hasKey_some l _ h
    rw [if_pos h, hv, pyGetD, hv, Option.getD_some]
  · have hf : hasKey l "base_url" = false := by
      cases hx : hasKey l "base_url"
      · rfl
      · exact absurd hx h
    rw [if_neg h, jLookup_append_self, pyGetD, hasKey_none l _ hf]

theorem bfBaseUrl_other (l : List (String × Json)) (k : String)
    (h : k ≠ "base_url") : jLookup (bfBaseUrl l) k = jLookup l k := by
  unfold bfBaseUrl
  split
  · rfl
  · exact jLookup_append_ne l _ k _ h

theorem bfParameters_self (l : List (String × Json)) :
    jLookup (bfParameters l) "parameters" = some (pyGetD l "parameters" (.obj [])) := by
  unfold bfParameters
  by_cases h : hasKey l "parameters" = true
  · obtain ⟨v, hv⟩ := hasKey_some l _ h
    rw [if_pos h, hv, pyGetD, hv, Option.getD_some]
  · have hf : hasKey l "parameters" = false := by
      cases hx : hasKey l "parameters"
      · rfl
      · exact absurd hx h
    rw [if_neg h, jLookup_append_self, pyGetD, hasKey_none l _ hf]

theorem bfParameters_other (l : List (String × Json)) (k : String)
    (h : k ≠ "parameters") : jLookup (bfParameters l) k = jLookup l k := by
  unfold bfParameters
  split
  · rfl
  · exact jLookup_append_ne l _ k _ h

theorem bfHttpAccept_self (l : List (String × Json)) :
    jLookup (bfHttpAccept l) "parameters"
      = match jLookup l "parameters" with
        | some (.obj kvs) =>
            some (.obj (if hasKey kvs "httpAccept" then kvs
              else kvs ++ [("httpAccept", .str "json")]))
        | x => x := by
  unfold bfHttpAccept
  cases hv : jLookup l "parameters" with
  | none => simp [hv]
  | some v =>
    cases v with
    | obj kvs =>
      by_cases hh : hasKey kvs "httpAccept" = true
      · simp [hv, hh]
      · have hkey : hasKey l "parameters" = true := by simp [hasKey, hv]
        simp only [hv, if_neg hh]
        rw [jLookup_setKey_self l _ _ hkey]
    | str s => simp [hv]
    | num n => simp [hv]
    | bool b => simp [hv]
    | null => simp [hv]
    | arr xs => simp [hv]

theorem bfHttpAccept_other (l : List (String × Json)) (k : String)
    (h : k ≠ "parameters") : jLookup (bfHttpAccept l) k = jLookup l k := by
  unfold bfHttpAccept
  cases hv : jLookup l "parameters" with
  | none => rfl
  | some v =>
    cases v with
    | obj kvs =>
      by_cases hh : hasKey kvs "httpAccept" = true
      · simp [hh]
      · have hf : hasKey kvs "httpAccept" = false := by
          cases hx : hasKey kvs "httpAccept"
          · rfl
          · exact absurd hx hh
        simp only [hf, Bool.false_eq_true, if_false]
        exact jLookup_setKey_ne l _ k _ h
    | str s => rfl
    | num n => rfl
    | bool b => rfl
    | null => rfl
    | arr xs => rfl

theorem bfOutputDir_self (l : List (String × Json)) :
    jLookup (bfOutputDir l) "output_directory"
      = some (pyGetD l "output_directory" (.str "downloads")) := by
  unfold bfOutputDir
  by_cases h : hasKey l "output_directory" = true
  · obtain ⟨v, hv⟩ := hasKey_some l _ h
    rw [if_pos h, hv, pyGetD, hv, Option.getD_some]
  · have hf : hasKey l "output_directory" = false := by
      cases hx : hasKey l "output_directory"
      · rfl
      · exact absurd hx h
    rw [if_neg h, jLookup_append_self, pyGetD, hasKey_none l _ hf]

theorem bfOutputDir_other (l : List (String × Json)) (k : String)
    (h : k ≠ "output_directory") : jLookup (bfOutputDir l) k = jLookup l k := by
  unfold bfOutputDir
  split
  · rfl
  · exact jLookup_append_ne l _ k _ h

theorem backfill_connection (raw : List (String × Json)) :
    jLookup (load_config_backfill raw) "connection" = jLookup raw "connection" := by
  unfold load_config_backfill
  rw [bfOutputDir_other _ _ (by decide), bfHttpAccept_other _ _ (by decide),
    bfParameters_other _ _ (by decide), bfBaseUrl_other _ _ (by decide)]

theorem backfill_download_options (raw : List (String × Json)) :
    jLookup (load_config_backfill raw) "download_options"
      = jLookup raw "download_options" := by
  unfold load_config_backfill
  rw [bfOutputDir_other _ _ (by decide), bfHttpAccept_other _ _ (by decide),
    bfParameters_other _ _ (by decide), bfBaseUrl_other _ _ (by decide)]

theorem backfill_base_url (raw : List (String × Json)) :
    jLookup (load_config_backfill raw) "base_url"
      = some (pyGetD raw "base_url" defaultBaseUrl) := by
  unfold load_config_backfill
  rw [bfOutputDir_other _ _ (by decide), bfHttpAccept_other _ _ (by decide),
    bfParameters_other _ _ (by decide), bfBaseUrl_self]

theorem backfill_parameters (raw : List (String × Json)) :
    jLookup (load_config_backfill raw) "parameters"
      = match jLookup raw "parameters" with
        | none => some (.obj [("httpAccept", .str "json")])
        | some (.obj kvs) =>
            some (.obj (if hasKey kvs "httpAccept" then kvs
              else kvs ++ [("httpAccept", .str "json")]))
        | some v => some v := by
  unfold load_config_backfill
  rw [bfOutputDir_other _ _ (by decide), bfHttpAccept_self]
  have hp : jLookup (bfParameters (bfBaseUrl raw)) "parameters"
      = some (pyGetD raw "parameters" (.obj [])) := by
    rw [bfParameters_self]
    unfold pyGetD
    rw [bfBaseUrl_other _ _ (by decide)]
  rw [hp]
  unfold pyGetD
  cases hv : jLookup raw "parameters" with
  | none => simp [hasKey, jLookup]
  | some v => cases v <;> simp

theorem backfill_output_dir (raw : List (String × Json)) :
    jLookup (load_config_backfill raw) "output_directory"
      = some (pyGetD raw "output_directory" (.str "downloads")) := by
  unfold load_config_backfill
  rw [bfOutputDir_self]
  unfold pyGetD
  rw [bfHttpAccept_other _ _ (by decide), bfParameters_other _ _ (by decide),
    bfBaseUrl_other _ _ (by decide)]

/-- C4: every optional key missing from the configuration file receives its
documented default (base_url = the search endpoint, parameters = empty with
httpAccept = "json" injected, output_directory = "downloads", timeout 120,
retries 3, user_agent "eo-downloader/1.0", chunk_size 65536, skip_existing
true), and no default overwrites an explicitly provided value.  The first
seven parts concern the dict returned by load_config, the remaining parts
the defaults main applies through .get when reading the connection and
download_options sections. -/
theorem config_defaults (raw : List (String × Json)) :
    (jLookup raw "base_url" = none →
      jLookup (load_config_backfill raw) "base_url" = some defaultBaseUrl)
    ∧ (∀ v, jLookup raw "base_url" = some v →
      jLookup (load_config_backfill raw) "base_url" = some v)
    ∧ (jLookup raw "parameters" = none →
      jLookup (load_config_backfill raw) "parameters"
        = some (.obj [("httpAccept", .str "json")]))
    ∧ (∀ kvs, jLookup raw "parameters" = some (.obj kvs) →
        hasKey kvs "httpAccept" = false →
        jLookup (load_config_backfill raw) "parameters"
          = some (.obj (kvs ++ [("httpAccept", .str "json")])))
    ∧ (∀ kvs, jLookup raw "parameters" = some (.obj kvs) →
        hasKey kvs "httpAccept" = true →
        jLookup (load_config_backfill raw) "parameters" = some (.obj kvs))
    ∧ (jLookup raw "output_directory" = none →
      jLookup (load_config_backfill raw) "output_directory"
        = some (.str "downloads"))
    ∧ (∀ v, jLookup raw "output_directory" = some v →
      jLookup (load_config_backfill raw) "output_directory" = some v)
    ∧ (jLookup raw "connection" = none →
        mainTimeout (load_config_backfill raw) = .num 120
        ∧ mainRetries (load_config_backfill raw) = .num 3
        ∧ mainUserAgent (load_config_backfill raw) = .str "eo-downloader/1.0")
    ∧ (∀ ckvs, jLookup raw "connection" = some (.obj ckvs) →
        (jLookup ckvs "timeout" = none →
            mainTimeout (load_config_backfill raw) = .num 120)
        ∧ (∀ v, jLookup ckvs "timeout" = some v →
            mainTimeout (load_config_backfill raw) = v)
        ∧ (jLookup ckvs "retries" = none →
            mainRetries (load_config_backfill raw) = .num 3)
        ∧ (∀ v, jLookup ckvs "retries" = some v →
            mainRetries (load_config_backfill raw) = v)
        ∧ (jLookup ckvs "user_agent" = none →
            mainUserAgent (load_config_backfill raw) = .str "eo-downloader/1.0")
        ∧ (∀ v, jLookup ckvs "user_agent" = some v →
            mainUserAgent (load_config_backfill raw) = v))
    ∧ (jLookup raw "download_options" = none →
        mainChunkSize (load_config_backfill raw) = .num 65536
        ∧ mainSkipExisting (load_config_backfill raw) = .bool true)
    ∧ (∀ dkvs, jLookup raw "download_options" = some (.obj dkvs) →
        (jLookup dkvs "chunk_size" = none →
            mainChunkSize (load_config_backfill raw) = .num 65536)
        ∧ (∀ v, jLookup dkvs "chunk_size" = some v →
            mainChunkSize (load_config_backfill raw) = v)
        ∧ (jLookup dkvs "skip_existing" = none →
            mainSkipExisting (load_config_backfill raw) = .bool true)
        ∧ (∀ v, jLookup dkvs "skip_existing" = some v →
            mainSkipExisting (load_config_backfill raw) = v)) := by
  refine ⟨?_, ?_, ?_, ?_, ?_, ?_, ?_, ?_, ?_, ?_, ?_⟩
  · intro h
    rw [backfill_base_url, pyGetD, h]
    rfl
  · intro v h
    rw [backfill_base_url, pyGetD, h]
    rfl
  · intro h
    rw [backfill_parameters, h]
  · intro kvs h hf
    rw [backfill_parameters, h]
    simp [hf]
  · intro kvs h ht
    rw [backfill_parameters, h]
    simp [ht]
  · intro h
    rw [backfill_output_dir, pyGetD, h]
    rfl
  · intro v h
    rw [backfill_output_dir, pyGetD, h]
    rfl
  · intro h
    refine ⟨?_, ?_, ?_⟩ <;>
      simp [mainTimeout, mainRetries, mainUserAgent, mainConnection, pyGetD,
        backfill_connection, h, asObj, jLookup]
  · intro ckvs h
    refine ⟨?_, ?_, ?_, ?_, ?_, ?_⟩ <;> intro v <;>
      simp_all [mainTimeout, mainRetries, mainUserAgent, mainConnection, pyGetD,
        backfill_connection, asObj]
  · intro h
    refine ⟨?_, ?_⟩ <;>
      simp [mainChunkSize, mainSkipExisting, mainDownloadOptions, pyGetD,
        backfill_download_options, h, asObj, jLookup]
  · intro dkvs h
    refine ⟨?_, ?_, ?_, ?_⟩ <;> intro v <;>
      simp_all [mainChunkSize, mainSkipExisting, mainDownloadOptions, pyGetD,
        backfill_download_options, asObj]

/-- Witness for C4: defaults materialise on the empty configuration and a
provided value survives. -/
theorem config_defaults_witness :
    jLookup (load_config_backfill []) "base_url" = some defaultBaseUrl
    ∧ jLookup (load_config_backfill []) "parameters"
        = some (.obj [("httpAccept", Json.str "json")])
    ∧ mainTimeout (load_config_backfill []) = .num 120
    ∧ jLookup (load_config_backfill [("output_directory", Json.str "o")])
        "output_directory" = some (Json.str "o") := by
  obtain ⟨h1, _, h3, _, _, _, _, h8, _⟩ := config_defaults []
  obtain ⟨_, _, _, _, _, _, h7b, _⟩ := config_defaults [("output_directory", Json.str "o")]
  exact ⟨h1 rfl, h3 rfl, (h8 rfl).1, h7b _ rfl⟩

/-- C9 counterexample: build_url_from_config is not pure.  On a
configuration whose parameters mapping lacks httpAccept, the call mutates
the configuration in place (params aliases config["parameters"] and
receives httpAccept = "json"). -/
theorem build_url_mutation_counterexample :
    (build_url_from_config [("parameters", Json.obj [])]).2
      = [("parameters", Json.obj [("httpAccept", Json.str "json")])]
    ∧ (build_url_from_config [("parameters", Json.obj [])]).2
      ≠ [("parameters", Json.obj [])] := by
  refine ⟨rfl, ?_⟩
  intro h
  have h2 : [("parameters", Json.obj [("httpAccept", Json.str "json")])]
      = [("parameters", Json.obj ([] : List (String × Json)))] := h
  simp at h2

/-- C9 (amended): build_url_from_config leaves the configuration (and its
parameters mapping) unchanged whenever the parameters mapping is absent or
already carries httpAccept — which load_config guarantees for every
configuration it returns; when a parameters mapping is present without
httpAccept, the call inserts httpAccept = "json" into it in place. -/
theorem build_url_no_mutation_when_httpAccept_present
    (config : List (String × Json))
    (h : jLookup config "parameters" = none
      ∨ ∃ kvs, jLookup config "parameters" = some (.obj kvs)
          ∧ hasKey kvs "httpAccept" = true) :
    (build_url_from_config config).2 = config := by
  unfold build_url_from_config
  rcases h with h | ⟨kvs, h, hh⟩
  · simp [pyGetD, h, asObj, hasKey, jLookup]
  · simp [pyGetD, h, asObj, hh]

/-- Witness for C9: the amended statement at a configuration whose
parameters already carry httpAccept. -/
theorem build_url_no_mutation_witness :
    (build_url_from_config
        [("parameters", Json.obj [("httpAccept", Json.str "json")])]).2
      = [("parameters", Json.obj [("httpAccept", Json.str "json")])] := by
  exact build_url_no_mutation_when_httpAccept_present _
    (Or.inr ⟨[("httpAccept", Json.str "json")], rfl, rfl⟩)

theorem listPref_mem (p s : List Char) (h : listPref p s = true) :
    ∀ c ∈ p, c ∈ s := by
  induction p generalizing s with
  | nil => intro c hc; cases hc
  | cons a as ih =>
    cases s with
    | nil => simp [listPref] at h
    | cons b bs =>
      simp only [listPref, Bool.and_eq_true, decide_eq_true_eq] at h
      intro c hc
      rcases List.mem_cons.1 hc with rfl | hc2
      · exact h.1 ▸ List.mem_cons_self _ _
      · exact List.mem_cons_of_mem _ (ih bs h.2 c hc2)

theorem lstripSlash_subset (l : List Char) (c : Char) (h : c ∈ lstripSlash l) :
    c ∈ l := by
  induction l with
  | nil => exact h
  | cons a rest ih =>
    by_cases ha : a = '/'
    · simp only [lstripSlash, if_pos ha] at h
      exact List.mem_cons_of_mem _ (ih h)
    · simp only [lstripSlash, if_neg ha] at h
      exact h

theorem lstripSlash_not_slash_head (l : List Char) :
    pathStartsSlash (lstripSlash l) = false := by
  induction l with
  | nil => rfl
  | cons a rest ih =>
    by_cases ha : a = '/'
    · simp only [lstripSlash, if_pos ha]
      exact ih
    · simp only [lstripSlash, if_neg ha, pathStartsSlash]
      exact decide_eq_false ha

theorem partAt_not_mem (t : Char) (l : List Char) (h : t ∉ l) :
    partAt t l = (l, none) := by
  induction l with
  | nil => rfl
  | cons c rest ih =>
    have hct : ¬ c = t := fun e => h (e ▸ List.mem_cons_self c rest)
    simp only [partAt, if_neg hct,
      ih (fun hm => h (List.mem_cons_of_mem _ hm))]

theorem splitScheme_none (cs : List Char) (h : ':' ∉ cs) :
    splitScheme cs = none := by
  unfold splitScheme
  rw [partAt_not_mem ':' cs h]

theorem netlocSplitTop_no_slash (cs : List Char) (h : pathStartsSlash cs = false) :
    netlocSplitTop cs = ([], cs) := by
  match cs with
  | [] => rfl
  | [c] => rfl
  | c1 :: c2 :: r =>
    have h1 : ¬ c1 = '/' := by
      simp only [pathStartsSlash, decide_eq_false_iff_not] at h
      exact h
    simp [netlocSplitTop, h1]

theorem splitOnCharL_ne_nil (t : Char) (l : List Char) : splitOnCharL t l ≠ [] := by
  cases l with
  | nil => simp [splitOnCharL]
  | cons c rest =>
    by_cases hc : c = t
    · simp [splitOnCharL, hc]
    · simp only [splitOnCharL, if_neg hc]
      cases hs : splitOnCharL t rest with
      | nil => simp
      | cons s ss => simp

theorem joinCharL_cons_ne (t : Char) (s : List Char) (rest : List (List Char))
    (h : rest ≠ []) : joinCharL t (s :: rest) = s ++ t :: joinCharL t rest := by
  match rest with
  | [] => exact absurd rfl h
  | r :: rs => rfl

theorem join_split (t : Char) (l : List Char) :
    joinCharL t (splitOnCharL t l) = l := by
  induction l with
  | nil => rfl
  | cons c rest ih =>
    by_cases hc : c = t
    · subst hc
      simp only [splitOnCharL, if_true, if_pos trivial]
      rw [joinCharL_cons_ne _ _ _ (splitOnCharL_ne_nil _ _), ih]
      rfl
    · simp only [splitOnCharL, if_neg hc]
      cases hs : splitOnCharL t rest with
      | nil => exact absurd hs (splitOnCharL_ne_nil _ _)
      | cons s ss =>
        rw [hs] at ih
        cases ss with
        | nil =>
          simp only [joinCharL] at ih ⊢
          rw [ih]
        | cons s2 ss2 =>
          rw [joinCharL_cons_ne t (c :: s) (s2 :: ss2) (by simp)]
          rw [joinCharL_cons_ne t s (s2 :: ss2) (by simp)] at ih
          rw [← ih]
          rfl

theorem midKeepLast_id (l : List (List Char)) (h : ∀ s ∈ l, s ≠ []) :
    midKeepLast l = l := by
  induction l with
  | nil => rfl
  | cons x rest ih =>
    cases rest with
    | nil => rfl
    | cons y rs =>
      have hx : x.isEmpty = false := by
        cases x with
        | nil => exact absurd rfl (h [] (List.mem_cons_self _ _))
        | cons a b => rfl
      simp only [midKeepLast, hx, Bool.false_eq_true, if_false]
      rw [ih (fun s hs => h s (List.mem_cons_of_mem _ hs))]

theorem resolveSegs_no_dots (l : List (List Char))
    (h : ∀ s ∈ l, s ≠ ['.'] ∧ s ≠ ['.', '.']) :
    ∀ acc, resolveSegs acc l = acc ++ l := by
  induction l with
  | nil => intro acc; simp [resolveSegs]
  | cons s rest ih =>
    intro acc
    have hs := h s (List.mem_cons_self _ _)
    simp only [resolveSegs, if_neg hs.2, if_neg hs.1]
    rw [ih (fun x hx => h x (List.mem_cons_of_mem _ hx))]
    simp

theorem getLast?_mem_own (l : List (List Char)) (a : List Char) :
    l.getLast? = some a → a ∈ l := by
  induction l with
  | nil => intro h; cases h
  | cons x rest ih =>
    intro h
    cases rest with
    | nil =>
      simp only [List.getLast?_singleton, Option.some.injEq] at h
      exact List.mem_singleton.2 h.symm
    | cons y rs =>
      rw [List.getLast?_cons_cons] at h
      exact List.mem_cons_of_mem _ (ih h)


/-- C7 (amended): a string starting with http:// or https:// is returned
unchanged; every other string is resolved with urljoin against
https://collgs.lu/ after trimming leading slashes, which for an ordinary
relative path (no scheme, query, fragment or parameter markers and no
empty or dot segments) is exactly the concatenation of the host prefix and
the trimmed string — in particular rel/file.zip resolves to
https://collgs.lu/rel/file.zip — while a string carrying a scheme other
than https is returned as its trimmed self, not joined onto the host. -/
theorem resolve_url_characterisation :
    (∀ u : String,
        (strStartsWith u "http://" = true ∨ strStartsWith u "https://" = true) →
        resolve_url u = u)
    ∧ (∀ u : String,
        lstripSlash u.data ≠ [] →
        (∀ c ∈ u.data, c ≠ ':' ∧ c ≠ ';' ∧ c ≠ '?' ∧ c ≠ '#') →
        (∀ s ∈ splitOnCharL '/' (lstripSlash u.data),
            s ≠ [] ∧ s ≠ ['.'] ∧ s ≠ ['.', '.']) →
        resolve_url u = String.mk ("https://collgs.lu/".data ++ lstripSlash u.data))
    ∧ (∀ (u : String) (sch rest : List Char),
        strStartsWith u "http://" = false → strStartsWith u "https://" = false →
        splitScheme (lstripSlash u.data) = some (sch, rest) →
        sch ≠ "https".data →
        resolve_url u = String.mk (lstripSlash u.data))
    ∧ resolve_url "rel/file.zip" = "https://collgs.lu/rel/file.zip" := by
  refine ⟨?_, ?_, ?_, by decide⟩
  · intro u h
    unfold resolve_url
    rcases h with h | h <;> simp [h]
  · intro u hne hchars hsegs
    have hcolon_t : ':' ∉ lstripSlash u.data := fun hc =>
      (hchars ':' (lstripSlash_subset _ _ hc)).1 rfl
    have hsemi_t : ';' ∉ lstripSlash u.data := fun hc =>
      (hchars ';' (lstripSlash_subset _ _ hc)).2.1 rfl
    have hq_t : '?' ∉ lstripSlash u.data := fun hc =>
      (hchars '?' (lstripSlash_subset _ _ hc)).2.2.1 rfl
    have hhash_t : '#' ∉ lstripSlash u.data := fun hc =>
      (hchars '#' (lstripSlash_subset _ _ hc)).2.2.2 rfl
    have hstart1 : strStartsWith u "http://" = false := by
      cases hx : strStartsWith u "http://"
      · rfl
      · exact absurd rfl
          ((hchars ':' (listPref_mem _ _ hx ':' (by decide))).1)
    have hstart2 : strStartsWith u "https://" = false := by
      cases hx : strStartsWith u "https://"
      · rfl
      · exact absurd rfl
          ((hchars ':' (listPref_mem _ _ hx ':' (by decide))).1)
    have hp_ne : splitOnCharL '/' (lstripSlash u.data) ≠ [] :=
      splitOnCharL_ne_nil _ _
    have emid : midKeepLast ([] :: splitOnCharL '/' (lstripSlash u.data))
        = splitOnCharL '/' (lstripSlash u.data) := by
      cases hps : splitOnCharL '/' (lstripSlash u.data) with
      | nil => exact absurd hps hp_ne
      | cons p ps =>
        simp only [midKeepLast, List.isEmpty_nil, if_true, if_pos rfl]
        rw [← hps, midKeepLast_id _ (fun s hs => (hsegs s hs).1)]
    have eres : resolveSegs [] ([] :: splitOnCharL '/' (lstripSlash u.data))
        = [] :: splitOnCharL '/' (lstripSlash u.data) := by
      simp only [resolveSegs, if_neg (by simp : ¬([] : List Char) = ['.', '.']),
        if_neg (by simp : ¬([] : List Char) = ['.'])]
      rw [resolveSegs_no_dots _ (fun s hs => ⟨(hsegs s hs).2.1, (hsegs s hs).2.2⟩)]
      simp
    have epfd : pyFinalDots ([] :: splitOnCharL '/' (lstripSlash u.data))
        ([] :: splitOnCharL '/' (lstripSlash u.data))
        = [] :: splitOnCharL '/' (lstripSlash u.data) := by
      unfold pyFinalDots
      cases hps : splitOnCharL '/' (lstripSlash u.data) with
      | nil => exact absurd hps hp_ne
      | cons p ps =>
        rw [List.getLast?_cons_cons]
        cases hl : (p :: ps).getLast? with
        | none => rfl
        | some a =>
          have hmem := getLast?_mem_own _ _ hl
          show (if a = ['.'] ∨ a = ['.', '.']
              then ([] :: p :: ps) ++ [[]] else [] :: p :: ps) = [] :: p :: ps
          rw [if_neg ?_]
          rintro (h | h)
          · exact (hsegs a (hps ▸ hmem)).2.1 h
          · exact (hsegs a (hps ▸ hmem)).2.2 h
    have ejoin : joinCharL '/' ([] :: splitOnCharL '/' (lstripSlash u.data))
        = '/' :: lstripSlash u.data := by
      rw [joinCharL_cons_ne _ _ _ hp_ne, join_split]
      rfl
    have hfalse1 : ((lstripSlash u.data) = []) = False := eq_false hne
    have hfalse2 : ((';' ∈ lstripSlash u.data)) = False := eq_false hsemi_t
    have hconsne : (('/' :: lstripSlash u.data) = ([] : List Char)) = False := by simp
    unfold resolve_url
    rw [hstart1, hstart2]
    rw [if_neg (by simp)]
    unfold urljoinCollgs
    rw [if_neg (show ¬ (String.mk (lstripSlash u.data)).data = [] from hne)]
    simp only [show (String.mk (lstripSlash u.data)).data = lstripSlash u.data from rfl,
      splitScheme_none _ hcolon_t, Option.getD_none,
      netlocSplitTop_no_slash _ (lstripSlash_not_slash_head u.data),
      partAt_not_mem '#' _ hhash_t, partAt_not_mem '?' _ hq_t,
      hfalse2, hfalse1, hconsne, if_false, false_and,
      lstripSlash_not_slash_head u.data, Bool.false_eq_true,
      ne_eq, not_true, not_false_iff, if_true,
      pyMidFilter, emid, eres, epfd, ejoin]
    rfl
  · intro u sch rest h1 h2 hsp hne
    unfold resolve_url
    rw [h1, h2]
    rw [if_neg (by simp)]
    unfold urljoinCollgs
    have htne : lstripSlash u.data ≠ [] := by
      intro h0
      rw [h0] at hsp
      simp [splitScheme, partAt] at hsp
    rw [if_neg (show ¬ (String.mk (lstripSlash u.data)).data = [] from htne)]
    simp only [show (String.mk (lstripSlash u.data)).data = lstripSlash u.data from rfl,
      hsp, Option.getD_some]
    rw [if_pos hne]

/-- C7 counterexample: the claim requires every string that does not start
with http:// or https:// to be joined onto the fixed base host, but a
string with another scheme is returned unchanged by urljoin and lands on
no collgs.lu URL at all. -/
theorem resolve_url_foreign_scheme_counterexample :
    resolve_url "ftp://other/x.zip" = "ftp://other/x.zip"
    ∧ strStartsWith "ftp://other/x.zip" "http://" = false
    ∧ strStartsWith "ftp://other/x.zip" "https://" = false
    ∧ strStartsWith (resolve_url "ftp://other/x.zip") "https://collgs.lu/" = false := by
  exact ⟨by decide, by decide, by decide, by decide⟩

/-- Witness for C7: each universally quantified part applied at a concrete
input. -/
theorem resolve_url_characterisation_witness :
    resolve_url "https://other.host/x.zip" = "https://other.host/x.zip"
    ∧ resolve_url "rel/file.zip"
        = String.mk ("https://collgs.lu/".data ++ lstripSlash "rel/file.zip".data)
    ∧ resolve_url "mailto:someone" = String.mk (lstripSlash "mailto:someone".data) := by
  refine ⟨resolve_url_characterisation.1 "https://other.host/x.zip" (Or.inr (by decide)),
    resolve_url_characterisation.2.1 "rel/file.zip" (by decide) ?_ ?_,
    resolve_url_characterisation.2.2.1 "mailto:someone" ("mailto".data)
      ("someone".data) (by decide) (by decide) (by decide) (by decide)⟩
  · intro c hc
    refine ⟨?_, ?_, ?_, ?_⟩ <;> (intro he; subst he; revert hc; decide)
  · intro s hs
    rw [show splitOnCharL '/' (lstripSlash "rel/file.zip".data)
        = ["rel".data, "file.zip".data] from by decide] at hs
    simp only [List.mem_cons, List.not_mem_nil, or_false] at hs
    rcases hs with rfl | rfl
    · exact ⟨by decide, by decide, by decide⟩
    · exact ⟨by decide, by decide, by decide⟩

/-- C8: when skip-existing is on and the derived destination file already
exists, stream_download returns that destination path, performs zero
network requests, and leaves every file (contents included) unchanged —
the only filesystem effect is the directory-creation step, which never
touches files. -/
theorem stream_download_skip_existing (net : String → Option HttpResp)
    (url out_dir : String) (cs tmo : Nat) (fs : FS)
    (h : hasFile (mkdirP fs out_dir) (out_dir ++ "/" ++ destName url) = true) :
    stream_download net url out_dir cs true tmo fs
      = (.ok (out_dir ++ "/" ++ destName url), mkdirP fs out_dir, 0)
    ∧ (mkdirP fs out_dir).files = fs.files := by
  constructor
  · simp only [stream_download]
    rw [if_pos (by simp [h])]
  · unfold mkdirP
    split <;> rfl

/-- Witness for C8: a pre-existing destination file is skipped with no
network request. -/
theorem stream_download_skip_existing_witness :
    stream_download (fun _ => none) "https://collgs.lu/rel/file.zip" "downloads"
        65536 true 120 ⟨[], [("downloads/file.zip", [7])]⟩
      = (.ok "downloads/file.zip",
          mkdirP ⟨[], [("downloads/file.zip", [7])]⟩ "downloads", 0)
    ∧ (mkdirP ⟨[], [("downloads/file.zip", [7])]⟩ "downloads").files
      = [("downloads/file.zip", [7])] := by
  exact stream_download_skip_existing (fun _ => none) "https://collgs.lu/rel/file.zip"
    "downloads" 65536 120 ⟨[], [("downloads/file.zip", [7])]⟩ (by decide)

/-- C3: every resolved URL is attempted independently, a failing download
is reported together with the offending URL, and a run that reaches the
download loop finishes with exit status 0 regardless of how many per-file
downloads fail. -/
theorem batch_resilience :
    (∀ (dl : String → Except String Unit) (urls : List String),
        (downloadLoop dl urls).1 = urls)
    ∧ (∀ (dl : String → Except String Unit) (urls : List String) (u e : String),
        u ∈ urls → dl u = .error e →
        ("Failed to download " ++ u ++ ": " ++ e) ∈ (downloadLoop dl urls).2)
    ∧ (∀ (env : Env) (a0 a1 : String) (rest : List String)
        (raw : List (String × Json)) (payload : Json),
        env.argv = a0 :: a1 :: rest →
        strEndsWith a1 ".json" = true →
        env.pathExists a1 = true →
        env.configJson a1 = some raw →
        env.catalog = .response true (some payload) →
        (runMain env).1 = .exited 0) := by
  refine ⟨?_, ?_, ?_⟩
  · intro dl urls
    induction urls with
    | nil => rfl
    | cons u rest ih =>
      simp only [downloadLoop]
      cases dl u <;> simp [ih]
  · intro dl urls u e hu herr
    induction urls with
    | nil => cases hu
    | cons u0 rest ih =>
      rcases List.mem_cons.1 hu with rfl | hmem
      · simp only [downloadLoop, herr]
        exact List.mem_cons_self _ _
      · simp only [downloadLoop]
        cases dl u0 <;> simp only []
        · exact List.mem_cons_of_mem _ (ih hmem)
        · exact ih hmem
  · intro env a0 a1 rest raw payload henv hend hpath hcfg hcat
    unfold runMain
    rw [henv]
    simp only [hend, if_true, hpath, hcfg, hcat, if_pos rfl]
    by_cases hc : find_zip_links payload = []
    · simp [hc]
    · simp [hc]

/-- Witness for C3: the loop attempts both URLs of a batch whose downloads
all fail, the failure of the first is reported, and a concrete environment
reaching the loop exits 0. -/
theorem batch_resilience_witness :
    (downloadLoop (fun _ => .error "boom") ["a", "b"]).1 = ["a", "b"]
    ∧ ("Failed to download " ++ "a" ++ ": " ++ "boom")
        ∈ (downloadLoop (fun _ => .error "boom") ["a", "b"]).2
    ∧ (runMain ⟨["prog", "c.json"], fun _ => true, fun _ => some [],
        .response true (some (.obj [])), fun _ => .ok ()⟩).1 = .exited 0 :=
  ⟨batch_resilience.1 _ _,
   batch_resilience.2.1 _ _ "a" "boom" (by decide) rfl,
   batch_resilience.2.2 _ "prog" "c.json" [] [] (.obj [])
     rfl (by decide) rfl rfl rfl⟩

/-- C5: the process exits 2 exactly when the run reaches the catalog
response and its body is not valid JSON (a clean exit with a message; an
uncaught exception is a different outcome constructor); usage errors and
both config-load failure modes exit 1, with the sample configuration
written when the config path is missing; and a completed run exits 0,
including the zero-link run. -/
theorem exit_codes (env : Env) :
    ((runMain env).1 = .exited 2 ↔
      ∃ a0 a1 rest, env.argv = a0 :: a1 :: rest
        ∧ strEndsWith a1 ".json" = true
        ∧ env.pathExists a1 = true
        ∧ (∃ raw, env.configJson a1 = some raw)
        ∧ env.catalog = .response true none)
    ∧ (env.argv.length < 2 → (runMain env).1 = .exited 1)
    ∧ (∀ a0 a1 rest, env.argv = a0 :: a1 :: rest →
        strEndsWith a1 ".json" = false → (runMain env).1 = .exited 1)
    ∧ (∀ a0 a1 rest, env.argv = a0 :: a1 :: rest →
        strEndsWith a1 ".json" = true → env.pathExists a1 = false →
        (runMain env).1 = .exited 1 ∧ (runMain env).2.sampleWritten = true)
    ∧ (∀ a0 a1 rest, env.argv = a0 :: a1 :: rest →
        strEndsWith a1 ".json" = true → env.pathExists a1 = true →
        env.configJson a1 = none → (runMain env).1 = .exited 1)
    ∧ (∀ a0 a1 rest raw payload, env.argv = a0 :: a1 :: rest →
        strEndsWith a1 ".json" = true → env.pathExists a1 = true →
        env.configJson a1 = some raw →
        env.catalog = .response true (some payload) →
        (runMain env).1 = .exited 0) := by
  refine ⟨⟨?_, ?_⟩, ?_, ?_, ?_, ?_, ?_⟩
  · intro h
    rcases henv : env.argv with _ | ⟨a0, _ | ⟨a1, rest⟩⟩
    · simp [runMain, henv] at h
    · simp [runMain, henv] at h
    · cases hend : strEndsWith a1 ".json"
      · simp [runMain, henv, hend] at h
      · cases hpath : env.pathExists a1
        · simp [runMain, henv, hend, hpath] at h
        · cases hcfg : env.configJson a1 with
          | none => simp [runMain, henv, hend, hpath, hcfg] at h
          | some raw =>
            cases hcat : env.catalog with
            | netError m => simp [runMain, henv, hend, hpath, hcfg, hcat] at h
            | response ok body =>
              cases ok
              · simp [runMain, henv, hend, hpath, hcfg, hcat] at h
              · cases body with
                | some payload =>
                  by_cases hc : find_zip_links payload = [] <;>
                    simp [runMain, henv, hend, hpath, hcfg, hcat, hc] at h
                | none =>
                  exact ⟨a0, a1, rest, rfl, hend, hpath, ⟨raw, hcfg⟩, rfl⟩
  · rintro ⟨a0, a1, rest, henv, hend, hpath, ⟨raw, hcfg⟩, hcat⟩
    simp [runMain, henv, hend, hpath, hcfg, hcat]
  · intro hlen
    rcases henv : env.argv with _ | ⟨a0, _ | ⟨a1, rest⟩⟩
    · simp [runMain, henv]
    · simp [runMain, henv]
    · rw [henv] at hlen
      simp only [List.length_cons] at hlen
      omega
  · intro a0 a1 rest henv hend
    simp [runMain, henv, hend]
  · intro a0 a1 rest henv hend hpath
    refine ⟨?_, ?_⟩ <;> simp [runMain, henv, hend, hpath]
  · intro a0 a1 rest henv hend hpath hcfg
    simp [runMain, henv, hend, hpath, hcfg]
  · intro a0 a1 rest raw payload henv hend hpath hcfg hcat
    by_cases hc : find_zip_links payload = [] <;>
      simp [runMain, henv, hend, hpath, hcfg, hcat, hc]

/-- Witness for C5: a concrete environment whose catalog body is not JSON
exits 2, and concrete usage and config failures exit 1. -/
theorem exit_codes_witness :
    (runMain ⟨["prog", "c.json"], fun _ => true, fun _ => some [],
        .response true none, fun _ => .ok ()⟩).1 = .exited 2
    ∧ (runMain ⟨["prog"], fun _ => true, fun _ => some [],
        .response true none, fun _ => .ok ()⟩).1 = .exited 1
    ∧ (runMain ⟨["prog", "c.json"], fun _ => false, fun _ => some [],
        .response true none, fun _ => .ok ()⟩).1 = .exited 1 := by
  refine ⟨?_, ?_, ?_⟩
  · exact (exit_codes _).1.2 ⟨"prog", "c.json", [], rfl, by decide, rfl, ⟨[], rfl⟩, rfl⟩
  · exact (exit_codes _).2.1 (by decide)
  · exact ((exit_codes _).2.2.2.1 "prog" "c.json" [] rfl (by decide) rfl).1
